import Mathlib

/-!
Shallow embedding of `memwar/src/mem.rs`, a cross-process memory access
toolkit built on the Windows virtual-memory API
(`ReadProcessMemory` / `WriteProcessMemory` / `GetLastError`).

Modelling conventions:
* Remote memory is a total function `Nat → Nat` (byte at each address).
* The OS is an oracle: a stream of per-call outcomes (`fail e` = the call
  returns FALSE and sets the thread-local last error to `e`; `ok t` = the
  call returns TRUE and reports `t` bytes transferred, clamped to the
  requested size, which is also the number of bytes actually moved).
* `GetLastError()` reads the `err` field of the state; successful calls do
  not change it.
* Machine integers and float bit patterns are represented by `Nat` values
  below `2 ^ (8 * size)`; `from_le_bytes` / `to_le_bytes` are the
  little-endian decode/encode functions `leDecode` / `leEncode` (for `f32`,
  `f64`, and the signed types these are bijections on bit patterns, so
  bit-identity of values is `Nat` equality of patterns).
* A machine word (`usize`) is 8 bytes; `usize` addition in `deref_chain`
  wraps modulo `2 ^ 64`.
-/

/-- Outcome of one OS memory call, as chosen by the environment. -/
inductive CallOutcome where
  | fail (e : Nat)
  | ok (t : Nat)
  deriving DecidableEq

/-- State visible to the library: remote memory, thread-local last error,
the oracle of future call outcomes, and the index of the next call. -/
structure OS where
  mem : Nat → Nat
  err : Nat
  outcomes : Nat → CallOutcome
  k : Nat

/-- Point update of a memory. -/
def memUpd (m : Nat → Nat) (x v : Nat) : Nat → Nat :=
  fun a => if a = x then v else m a

/-- Store a list of bytes at consecutive addresses. -/
def writeBytes : (Nat → Nat) → Nat → List Nat → (Nat → Nat)
  | m, _, [] => m
  | m, addr, b :: bs => writeBytes (memUpd m addr b) (addr + 1) bs

/-- Little-endian decoding of a byte list (`from_le_bytes`). -/
def leDecode : List Nat → Nat
  | [] => 0
  | b :: bs => b + 256 * leDecode bs

/-- Little-endian encoding of a value into `n` bytes (`to_le_bytes`). -/
def leEncode : Nat → Nat → List Nat
  | 0, _ => []
  | n + 1, v => v % 256 :: leEncode n (v / 256)

/-- Machine word modulus (64-bit `usize`). -/
def WORD : Nat := 2 ^ 64

/-- `isize::MAX` on the 64-bit target: `Vec::with_capacity` panics by
documented contract ("capacity overflow") when asked for a capacity that
exceeds this many bytes. -/
def ISIZE_MAX : Nat := 2 ^ 63 - 1

/-- `ReadProcessMemory(h, addr, buf, n, &read)`: on failure the last error is
set and `FALSE` is returned; on success the reported count (clamped to the
request) and the bytes transferred are produced. -/
def readProcessMemory (s : OS) (addr n : Nat) : Option (Nat × List Nat) × OS :=
  match s.outcomes s.k with
  | .fail e => (none, { s with err := e, k := s.k + 1 })
  | .ok t =>
    let tr := min t n
    (some (tr, (List.range tr).map fun i => s.mem (addr + i)), { s with k := s.k + 1 })

/-- `ReadProcessMemory` of one machine word with a null count pointer, as in
`deref_chain`: success copies the full word (the Win32 call is
all-or-nothing when it succeeds; the count is not observable here). -/
def readWord (s : OS) (addr : Nat) : Option Nat × OS :=
  match s.outcomes s.k with
  | .fail e => (none, { s with err := e, k := s.k + 1 })
  | .ok _ =>
    (some (leDecode ((List.range 8).map fun i => s.mem (addr + i))), { s with k := s.k + 1 })

/-- `WriteProcessMemory(h, addr, src, n, &written)`: on success the reported
count (clamped to the request) is the number of source bytes stored. -/
def writeProcessMemory (s : OS) (addr : Nat) (data : List Nat) : Option Nat × OS :=
  match s.outcomes s.k with
  | .fail e => (none, { s with err := e, k := s.k + 1 })
  | .ok t =>
    let tr := min t data.length
    (some tr, { s with mem := writeBytes s.mem addr (data.take tr), k := s.k + 1 })

/-- `Allocation`: a `(process handle, base address)` pair. -/
structure Allocation where
  h_process : Nat
  base : Nat

/-- `Allocation::existing(h_process, base)`. -/
def Allocation.existing (h b : Nat) : Allocation :=
  { h_process := h, base := b }

/-- `Allocation::inner`: the base pointer. -/
def Allocation.inner (a : Allocation) : Nat :=
  a.base

/-- `SendAlloc`: the same pair, marked transferable between threads. -/
structure SendAlloc where
  h_process : Nat
  p_base : Nat

/-- `SendAlloc::new`. -/
def SendAlloc.mk' (h b : Nat) : SendAlloc :=
  { h_process := h, p_base := b }

/-- `impl From<SendAlloc> for Allocation`: a pure field copy. -/
def SendAlloc.toAllocation (sa : SendAlloc) : Allocation :=
  { h_process := sa.h_process, base := sa.p_base }

/-- `Allocation::read(addr, buf, buf_size)`: one `ReadProcessMemory` call;
returns the reported count (and, in this model, the transferred bytes). -/
def Allocation.read (a : Allocation) (addr n : Nat) (s : OS) :
    Except Nat (Nat × List Nat) × OS :=
  match readProcessMemory s addr n with
  | (none, s') => (.error s'.err, s')
  | (some r, s') => (.ok r, s')

/-- `Allocation::read_const::<N>(addr)`: `self.read` into a zeroed `[u8; N]`;
a reported count of `0` is rejected with `GetLastError()`. The returned
buffer is the transferred bytes followed by the untouched zero bytes. -/
def Allocation.read_const (a : Allocation) (n addr : Nat) (s : OS) :
    Except Nat (List Nat) × OS :=
  match a.read addr n s with
  | (.error e, s') => (.error e, s')
  | (.ok (tr, bs), s') =>
    if tr = 0 then (.error s'.err, s')
    else (.ok (bs ++ List.replicate (n - tr) 0), s')

/-- Decode the buffer of a `read_const` result (`T::from_le_bytes(buf)`). -/
def decodeResult (r : Except Nat (List Nat) × OS) : Except Nat Nat × OS :=
  (r.1.map leDecode, r.2)

/-- `Allocation::read_u8` (the source returns `buf[0]`, which equals the
little-endian decode of the one-byte buffer). -/
def Allocation.read_u8 (a : Allocation) (addr : Nat) (s : OS) : Except Nat Nat × OS :=
  decodeResult (a.read_const 1 addr s)

/-- `Allocation::read_u16`. -/
def Allocation.read_u16 (a : Allocation) (addr : Nat) (s : OS) : Except Nat Nat × OS :=
  decodeResult (a.read_const 2 addr s)

/-- `Allocation::read_u32`. -/
def Allocation.read_u32 (a : Allocation) (addr : Nat) (s : OS) : Except Nat Nat × OS :=
  decodeResult (a.read_const 4 addr s)

/-- `Allocation::read_u64`. -/
def Allocation.read_u64 (a : Allocation) (addr : Nat) (s : OS) : Except Nat Nat × OS :=
  decodeResult (a.read_const 8 addr s)

/-- `Allocation::read_u128`. -/
def Allocation.read_u128 (a : Allocation) (addr : Nat) (s : OS) : Except Nat Nat × OS :=
  decodeResult (a.read_const 16 addr s)

/-- `Allocation::read_i16` (two's-complement bit pattern as a `Nat`). -/
def Allocation.read_i16 (a : Allocation) (addr : Nat) (s : OS) : Except Nat Nat × OS :=
  decodeResult (a.read_const 2 addr s)

/-- `Allocation::read_i32` (two's-complement bit pattern as a `Nat`). -/
def Allocation.read_i32 (a : Allocation) (addr : Nat) (s : OS) : Except Nat Nat × OS :=
  decodeResult (a.read_const 4 addr s)

/-- `Allocation::read_i64` (two's-complement bit pattern as a `Nat`). -/
def Allocation.read_i64 (a : Allocation) (addr : Nat) (s : OS) : Except Nat Nat × OS :=
  decodeResult (a.read_const 8 addr s)

/-- `Allocation::read_f32` (IEEE-754 bit pattern as a `Nat`). -/
def Allocation.read_f32 (a : Allocation) (addr : Nat) (s : OS) : Except Nat Nat × OS :=
  decodeResult (a.read_const 4 addr s)

/-- `Allocation::read_f64` (IEEE-754 bit pattern as a `Nat`). -/
def Allocation.read_f64 (a : Allocation) (addr : Nat) (s : OS) : Except Nat Nat × OS :=
  decodeResult (a.read_const 8 addr s)

/-- `Allocation::write(addr, data, data_size)`: one `WriteProcessMemory`
call; returns the reported count unchecked. -/
def Allocation.write (a : Allocation) (addr : Nat) (data : List Nat) (s : OS) :
    Except Nat Nat × OS :=
  match writeProcessMemory s addr data with
  | (none, s') => (.error s'.err, s')
  | (some w, s') => (.ok w, s')

/-- `Allocation::write_offset(offset, data, data_size)`. -/
def Allocation.write_offset (a : Allocation) (offset : Nat) (data : List Nat) (s : OS) :
    Except Nat Nat × OS :=
  a.write (a.base + offset) data s

/-- `Allocation::write_at_base`. -/
def Allocation.write_at_base (a : Allocation) (data : List Nat) (s : OS) :
    Except Nat Nat × OS :=
  a.write_offset 0 data s

/-- `Allocation::write_u32(addr, data)`. -/
def Allocation.write_u32 (a : Allocation) (addr v : Nat) (s : OS) : Except Nat Nat × OS :=
  a.write addr (leEncode 4 v) s

/-- `Allocation::write_f32(addr, data)` (bit pattern as a `Nat`). -/
def Allocation.write_f32 (a : Allocation) (addr v : Nat) (s : OS) : Except Nat Nat × OS :=
  a.write addr (leEncode 4 v) s

/-- `Allocation::write_i32(addr, data)` (bit pattern as a `Nat`). -/
def Allocation.write_i32 (a : Allocation) (addr v : Nat) (s : OS) : Except Nat Nat × OS :=
  a.write addr (leEncode 4 v) s

/-- `Allocation::write_u16(addr, data)`. -/
def Allocation.write_u16 (a : Allocation) (addr v : Nat) (s : OS) : Except Nat Nat × OS :=
  a.write addr (leEncode 2 v) s

/-- `Allocation::write_u32_offset(offset, data)`. -/
def Allocation.write_u32_offset (a : Allocation) (offset v : Nat) (s : OS) :
    Except Nat Nat × OS :=
  a.write_offset offset (leEncode 4 v) s

/-- `Allocation::write_f32_offset(offset, data)` (bit pattern as a `Nat`). -/
def Allocation.write_f32_offset (a : Allocation) (offset v : Nat) (s : OS) :
    Except Nat Nat × OS :=
  a.write_offset offset (leEncode 4 v) s

/-- `Allocation::write_i32_offset(offset, data)` (bit pattern as a `Nat`). -/
def Allocation.write_i32_offset (a : Allocation) (offset v : Nat) (s : OS) :
    Except Nat Nat × OS :=
  a.write_offset offset (leEncode 4 v) s

/-- The loop body of `Allocation::deref_chain`, mirroring the Rust `for` loop
over `offsets.iter().enumerate()`: `first` plays the role of `i == 0` (the
one extra word read at the incoming address), then `addr := offset + tmp`
(wrapping `usize` addition) and a word read at the new `addr` into `tmp`;
any failing `ReadProcessMemory` returns `GetLastError()` at that moment. -/
def derefGo (a : Allocation) : List Nat → Nat → Nat → Bool → OS → Except Nat Nat × OS
  | [], addr, _tmp, _first, s => (.ok addr, s)
  | o :: rest, addr, tmp, first, s =>
    match (if first then readWord s addr else (some tmp, s)) with
    | (none, s') => (.error s'.err, s')
    | (some t, s') =>
      let addr' := (o + t) % WORD
      match readWord s' addr' with
      | (none, s'') => (.error s''.err, s'')
      | (some t', s'') => derefGo a rest addr' t' false s''

/-- `Allocation::deref_chain(base, offsets)`: `addr := base`, `tmp := 0`,
then the loop above; returns the final `addr`. -/
def Allocation.deref_chain (a : Allocation) (base : Nat) (offsets : List Nat) (s : OS) :
    Except Nat Nat × OS :=
  derefGo a offsets base 0 true s

/-- `Allocation::deref_chain_with_base(base, offsets)`: the start address is
`base + self.base` (pointer `add`). -/
def Allocation.deref_chain_with_base (a : Allocation) (b : Nat) (offsets : List Nat)
    (s : OS) : Except Nat Nat × OS :=
  a.deref_chain (b + a.base) offsets s

/-- The tail of the pointer-walk as the specification describes it: for each
offset `o` in order, `addr := t + o` (machine-word addition), then one word
read at `addr` into `t`; at the end the final `addr` is returned, not the
final `t`. -/
def derefFold (a : Allocation) : List Nat → Nat → Nat → OS → Except Nat Nat × OS
  | [], addr, _t, s => (.ok addr, s)
  | o :: rest, _addr, t, s =>
    let addr' := (t + o) % WORD
    match readWord s addr' with
    | (none, s') => (.error s'.err, s')
    | (some t', s') => derefFold a rest addr' t' s'

/-- The pointer-walk algorithm exactly as the specification states it
(claim C3): read one word at `start` into the accumulator `t`, then fold the
offsets as in `derefFold`; every failing word read aborts with the OS error
captured at that moment. -/
def derefChainSpec (a : Allocation) (start : Nat) (offsets : List Nat) (s : OS) :
    Except Nat Nat × OS :=
  match readWord s start with
  | (none, s') => (.error s'.err, s')
  | (some t, s') => derefFold a offsets start t s'

/-- Result of the buffered write loop. `panicked` marks a Rust panic site
(out-of-bounds payload slice, or `remaining -= written` underflow);
`fuelOut` marks that the given step bound was exhausted while the `while`
loop still had `remaining > 0` (used to express non-termination). -/
inductive BufResult where
  | done (s : OS)
  | osError (e : Nat) (s : OS)
  | panicked
  | fuelOut

/-- `done` or `osError`: the loop returned (to completion or OS failure). -/
def BufResult.isNormal : BufResult → Prop
  | .done _ => True
  | .osError _ _ => True
  | .panicked => False
  | .fuelOut => False

/-- The `while remaining > 0` loop of
`Allocation::write_all_bytes_buffered_offset`, with an explicit step bound
`fuel`. Each pass takes `real_remains := min remaining buf_size` bytes of
the payload starting at `total_written` (a slice whose bounds Rust checks at
run time), writes them at offset `total_written + offset`, then advances
`total_written` by the reported count and decreases `remaining` by the
same. The pre-loop `Vec::with_capacity(buf_size)` allocation and its
capacity-overflow panic are modelled in the wrapper below, which runs them
before entering this loop. -/
def writeAllGo (a : Allocation) (offset : Nat) (data : List Nat) (bufSize : Nat) :
    Nat → Nat → Nat → OS → BufResult
  | fuel, remaining, totalWritten, s =>
    if remaining = 0 then .done s
    else
      match fuel with
      | 0 => .fuelOut
      | fuel + 1 =>
        let realRemains := min remaining bufSize
        if data.length < totalWritten + realRemains then .panicked
        else
          match a.write_offset (totalWritten + offset) ((data.drop totalWritten).take realRemains) s with
          | (.error e, s') => .osError e s'
          | (.ok written, s') =>
            if remaining < written then .panicked
            else writeAllGo a offset data bufSize fuel (remaining - written) (totalWritten + written) s'

/-- `Allocation::write_all_bytes_buffered_offset(offset, data, buf_size)`:
first the unconditional `Vec::with_capacity(buf_size)` allocation, which
panics (capacity overflow) when `buf_size` exceeds `isize::MAX` bytes —
before any OS call, even for an empty payload — then the loop, entered with
`remaining = data.len()` and `total_written = 0`. `fuel` bounds the number
of loop iterations observed. -/
def Allocation.write_all_bytes_buffered_offset (a : Allocation) (offset : Nat)
    (data : List Nat) (bufSize fuel : Nat) (s : OS) : BufResult :=
  if ISIZE_MAX < bufSize then .panicked
  else writeAllGo a offset data bufSize fuel data.length 0 s

/-- `Allocation::write_all_bytes_buffered(data, buf_size)`: offset `0`. -/
def Allocation.write_all_bytes_buffered (a : Allocation) (data : List Nat)
    (bufSize fuel : Nat) (s : OS) : BufResult :=
  a.write_all_bytes_buffered_offset 0 data bufSize fuel s

/-- The all-zero memory, used for concrete test states. -/
def mem0 : Nat → Nat := fun _ => 0

/-- A concrete allocation wrapping base address 1000. -/
def allocW : Allocation := Allocation.existing 0 1000

/-- OS state whose next calls all succeed reporting 2 bytes transferred. -/
def stOk2 : OS := { mem := mem0, err := 7, outcomes := fun _ => CallOutcome.ok 2, k := 0 }

/-- OS state whose next calls all succeed reporting 1 byte transferred. -/
def stOk1 : OS := { mem := mem0, err := 4, outcomes := fun _ => CallOutcome.ok 1, k := 0 }

/-- OS state whose next calls all fail with error code 5. -/
def stFail : OS := { mem := mem0, err := 3, outcomes := fun _ => CallOutcome.fail 5, k := 0 }

/-- OS state whose next calls all succeed reporting 16 bytes (full transfers
for every request of at most 16 bytes). -/
def stT : OS := { mem := mem0, err := 9, outcomes := fun _ => CallOutcome.ok 16, k := 0 }

/-- OS state whose next calls all succeed reporting 0 bytes transferred. -/
def stZero : OS := { mem := mem0, err := 6, outcomes := fun _ => CallOutcome.ok 0, k := 0 }

theorem leEncode_length (n v : Nat) : (leEncode n v).length = n := by
  induction n generalizing v with
  | zero => rfl
  | succ n ih => simp [leEncode, ih]

theorem leEncode_getD (n v i : Nat) (h : i < n) :
    (leEncode n v).getD i 0 = v / 256 ^ i % 256 := by
  induction n generalizing v i with
  | zero => omega
  | succ n ih =>
    cases i with
    | zero => simp [leEncode]
    | succ i =>
      rw [leEncode, List.getD_cons_succ, ih _ _ (by omega)]
      rw [Nat.div_div_eq_div_mul, pow_succ]
      ring_nf

theorem leDecode_leEncode (n v : Nat) (h : v < 256 ^ n) : leDecode (leEncode n v) = v := by
  induction n generalizing v with
  | zero =>
    have : v = 0 := by simpa using h
    simp [this, leEncode, leDecode]
  | succ n ih =>
    rw [leEncode, leDecode, ih (v / 256) (by rw [pow_succ] at h; omega)]
    exact Nat.mod_add_div v 256

theorem writeBytes_apply (bs : List Nat) (m : Nat → Nat) (addr x : Nat) :
    writeBytes m addr bs x =
      if addr ≤ x ∧ x < addr + bs.length then bs.getD (x - addr) 0 else m x := by
  induction bs generalizing m addr with
  | nil =>
    rw [writeBytes]
    have : ¬ (addr ≤ x ∧ x < addr + ([] : List Nat).length) := by simp
    rw [if_neg this]
  | cons b bs ih =>
    rw [writeBytes, ih]
    rcases Nat.lt_trichotomy x addr with hlt | heq | hgt
    · have h1 : ¬ (addr + 1 ≤ x ∧ x < addr + 1 + bs.length) := by omega
      have h2 : ¬ (addr ≤ x ∧ x < addr + (b :: bs).length) := by
        simp only [List.length_cons]; omega
      rw [if_neg h1, if_neg h2, memUpd, if_neg (by omega)]
    · subst heq
      have h1 : ¬ (x + 1 ≤ x ∧ x < x + 1 + bs.length) := by omega
      have h2 : x ≤ x ∧ x < x + (b :: bs).length := by
        simp only [List.length_cons]; omega
      rw [if_neg h1, if_pos h2, memUpd, if_pos rfl]
      simp
    · by_cases hin : x < addr + 1 + bs.length
      · have h1 : addr + 1 ≤ x ∧ x < addr + 1 + bs.length := by omega
        have h2 : addr ≤ x ∧ x < addr + (b :: bs).length := by
          simp only [List.length_cons]; omega
        rw [if_pos h1, if_pos h2]
        have hx : x - addr = (x - (addr + 1)) + 1 := by omega
        rw [hx, List.getD_cons_succ]
      · have h1 : ¬ (addr + 1 ≤ x ∧ x < addr + 1 + bs.length) := by omega
        have h2 : ¬ (addr ≤ x ∧ x < addr + (b :: bs).length) := by
          simp only [List.length_cons]; omega
        rw [if_neg h1, if_neg h2, memUpd, if_neg (by omega)]

theorem writeBytes_apply_in (bs : List Nat) (m : Nat → Nat) (addr i : Nat)
    (h : i < bs.length) : writeBytes m addr bs (addr + i) = bs.getD i 0 := by
  rw [writeBytes_apply, if_pos (by omega)]
  congr 1
  omega

/-- Reading back the bytes that were just stored. -/
theorem range_map_writeBytes (bs : List Nat) (m : Nat → Nat) (addr : Nat) :
    ((List.range bs.length).map fun i => writeBytes m addr bs (addr + i)) = bs := by
  apply List.ext_getElem
  · simp
  · intro i h1 h2
    simp only [List.getElem_map, List.getElem_range]
    rw [writeBytes_apply_in _ _ _ _ h2]
    exact List.getD_eq_getElem bs 0 h2

theorem readProcessMemory_ok (s : OS) (addr n t : Nat)
    (h : s.outcomes s.k = CallOutcome.ok t) :
    readProcessMemory s addr n =
      (some (min t n, (List.range (min t n)).map fun i => s.mem (addr + i)),
       { s with k := s.k + 1 }) := by
  unfold readProcessMemory
  rw [h]

theorem readProcessMemory_fail (s : OS) (addr n e : Nat)
    (h : s.outcomes s.k = CallOutcome.fail e) :
    readProcessMemory s addr n = (none, { s with err := e, k := s.k + 1 }) := by
  unfold readProcessMemory
  rw [h]

theorem writeProcessMemory_ok (s : OS) (addr : Nat) (data : List Nat) (t : Nat)
    (h : s.outcomes s.k = CallOutcome.ok t) :
    writeProcessMemory s addr data =
      (some (min t data.length),
       { s with mem := writeBytes s.mem addr (data.take (min t data.length)),
                k := s.k + 1 }) := by
  unfold writeProcessMemory
  rw [h]

theorem writeProcessMemory_fail (s : OS) (addr : Nat) (data : List Nat) (e : Nat)
    (h : s.outcomes s.k = CallOutcome.fail e) :
    writeProcessMemory s addr data = (none, { s with err := e, k := s.k + 1 }) := by
  unfold writeProcessMemory
  rw [h]

theorem writeBytes_append (l1 l2 : List Nat) (m : Nat → Nat) (addr : Nat) :
    writeBytes m addr (l1 ++ l2) =
      writeBytes (writeBytes m addr l1) (addr + l1.length) l2 := by
  induction l1 generalizing m addr with
  | nil => simp [writeBytes]
  | cons b l1 ih =>
    rw [List.cons_append, writeBytes, writeBytes, ih]
    have : addr + 1 + l1.length = addr + (b :: l1).length := by
      simp only [List.length_cons]; omega
    rw [this]

theorem derefFold_cons (a : Allocation) (o : Nat) (rest : List Nat) (addr t : Nat)
    (s : OS) :
    derefFold a (o :: rest) addr t s =
      match readWord s ((t + o) % WORD) with
      | (none, s') => (Except.error s'.err, s')
      | (some t', s') => derefFold a rest ((t + o) % WORD) t' s' := by
  rfl

theorem derefGo_false_eq (a : Allocation) (rest : List Nat) (addr t : Nat) (s : OS) :
    derefGo a rest addr t false s = derefFold a rest addr t s := by
  induction rest generalizing addr t s with
  | nil => rfl
  | cons o rest ih =>
    show (match readWord s ((o + t) % WORD) with
          | (none, s') => ((Except.error s'.err : Except Nat Nat), s')
          | (some t', s') => derefGo a rest ((o + t) % WORD) t' false s') =
        derefFold a (o :: rest) addr t s
    rw [derefFold_cons, Nat.add_comm o t]
    rcases hr : readWord s ((t + o) % WORD) with ⟨r, s'⟩
    cases r with
    | none => rfl
    | some t' => exact ih _ _ _

theorem write_ok_eq (a : Allocation) (addr : Nat) (data : List Nat) (s : OS) (t : Nat)
    (h : s.outcomes s.k = CallOutcome.ok t) :
    a.write addr data s =
      (Except.ok (min t data.length),
       { s with mem := writeBytes s.mem addr (data.take (min t data.length)),
                k := s.k + 1 }) := by
  unfold Allocation.write
  rw [writeProcessMemory_ok s addr data t h]

theorem write_fail_eq (a : Allocation) (addr : Nat) (data : List Nat) (s : OS) (e : Nat)
    (h : s.outcomes s.k = CallOutcome.fail e) :
    a.write addr data s = (Except.error e, { s with err := e, k := s.k + 1 }) := by
  unfold Allocation.write
  rw [writeProcessMemory_fail s addr data e h]

/-- One pass of the buffered-write loop when the OS call fails. -/
theorem writeAllGo_step_fail (a : Allocation) (offset : Nat) (data : List Nat)
    (bufSize fuel rem tot : Nat) (s : OS) (e : Nat)
    (h0 : rem ≠ 0) (hbound : ¬ data.length < tot + min rem bufSize)
    (hcall : s.outcomes s.k = CallOutcome.fail e) :
    writeAllGo a offset data bufSize (fuel + 1) rem tot s =
      BufResult.osError e { s with err := e, k := s.k + 1 } := by
  rw [writeAllGo, if_neg h0, if_neg hbound]
  unfold Allocation.write_offset
  rw [write_fail_eq a _ _ s e hcall]

/-- One pass of the buffered-write loop when the OS call succeeds reporting
`t` bytes (so `written = min t real_remains` bytes are stored). -/
theorem writeAllGo_step_ok (a : Allocation) (offset : Nat) (data : List Nat)
    (bufSize fuel rem tot : Nat) (s : OS) (t : Nat)
    (h0 : rem ≠ 0) (hbound : ¬ data.length < tot + min rem bufSize)
    (hcall : s.outcomes s.k = CallOutcome.ok t) :
    writeAllGo a offset data bufSize (fuel + 1) rem tot s =
      (if rem < min t (min rem bufSize) then BufResult.panicked
       else writeAllGo a offset data bufSize fuel
         (rem - min t (min rem bufSize)) (tot + min t (min rem bufSize))
         { s with
           mem := writeBytes s.mem (a.base + (tot + offset))
             (((data.drop tot).take (min rem bufSize)).take (min t (min rem bufSize))),
           k := s.k + 1 }) := by
  have hlen : ((data.drop tot).take (min rem bufSize)).length = min rem bufSize := by
    rw [List.length_take, List.length_drop]
    omega
  rw [writeAllGo, if_neg h0, if_neg hbound]
  unfold Allocation.write_offset
  rw [write_ok_eq a _ _ s t hcall, hlen]

/-- With an oracle that always succeeds reporting `0` bytes, the loop of the
buffered write makes no progress: any step bound is exhausted. -/
theorem writeAllGo_zero_reports (a : Allocation) (offset : Nat) (data : List Nat)
    (c rem tot : Nat) (h0 : 0 < rem) (hinv : tot + rem = data.length) :
    ∀ fuel s, (∀ j, s.outcomes j = CallOutcome.ok 0) →
      writeAllGo a offset data c fuel rem tot s = BufResult.fuelOut := by
  intro fuel
  induction fuel with
  | zero =>
    intro s _
    rw [writeAllGo, if_neg (by omega)]
  | succ fuel ih =>
    intro s hor
    have hle : min rem c ≤ rem := Nat.min_le_left _ _
    rw [writeAllGo_step_ok a offset data c fuel rem tot s 0 (by omega) (by omega) (hor s.k)]
    rw [if_neg (by omega)]
    simp only [Nat.zero_min, Nat.sub_zero, Nat.add_zero]
    exact ih _ (fun j => hor j)

/-- If the chunk size is positive and every successful write reports at
least one byte, the loop returns (completion or OS error) within
`remaining` iterations. -/
theorem writeAllGo_terminates (a : Allocation) (offset : Nat) (data : List Nat)
    (c : Nat) (hc : 1 ≤ c) :
    ∀ fuel rem tot s, rem ≤ fuel → tot + rem = data.length →
      (∀ j t, s.outcomes j = CallOutcome.ok t → 1 ≤ t) →
      (writeAllGo a offset data c fuel rem tot s).isNormal := by
  intro fuel
  induction fuel with
  | zero =>
    intro rem tot s hrem hinv hor
    have : rem = 0 := by omega
    rw [writeAllGo, if_pos this]
    trivial
  | succ fuel ih =>
    intro rem tot s hrem hinv hor
    by_cases h0 : rem = 0
    · rw [writeAllGo, if_pos h0]; trivial
    · have hle : min rem c ≤ rem := Nat.min_le_left _ _
      rcases hcall : s.outcomes s.k with e | t
      · rw [writeAllGo_step_fail a offset data c fuel rem tot s e h0 (by omega) hcall]
        trivial
      · rw [writeAllGo_step_ok a offset data c fuel rem tot s t h0 (by omega) hcall]
        have ht : 1 ≤ t := hor s.k t hcall
        have hmin : 1 ≤ min rem c := by omega
        have hwle : min t (min rem c) ≤ rem := by omega
        rw [if_neg (by omega)]
        exact ih (rem - min t (min rem c)) (tot + min t (min rem c)) _
          (by omega) (by omega) (fun j t' h => hor j t' h)

/-- The payload slice is always in bounds and the reported count never
exceeds `remaining`, so neither Rust panic site can fire. -/
theorem writeAllGo_never_panics (a : Allocation) (offset : Nat) (data : List Nat)
    (c : Nat) :
    ∀ fuel rem tot s, tot + rem = data.length →
      writeAllGo a offset data c fuel rem tot s ≠ BufResult.panicked := by
  intro fuel
  induction fuel with
  | zero =>
    intro rem tot s hinv
    rw [writeAllGo]
    by_cases h0 : rem = 0
    · rw [if_pos h0]; intro h; cases h
    · rw [if_neg h0]; intro h; cases h
  | succ fuel ih =>
    intro rem tot s hinv
    by_cases h0 : rem = 0
    · rw [writeAllGo, if_pos h0]; intro h; cases h
    · have hle : min rem c ≤ rem := Nat.min_le_left _ _
      rcases hcall : s.outcomes s.k with e | t
      · rw [writeAllGo_step_fail a offset data c fuel rem tot s e h0 (by omega) hcall]
        intro h; cases h
      · rw [writeAllGo_step_ok a offset data c fuel rem tot s t h0 (by omega) hcall]
        have hwle : min t (min rem c) ≤ rem := by omega
        rw [if_neg (by omega)]
        exact ih (rem - min t (min rem c)) (tot + min t (min rem c)) _ (by omega)

/-- With an oracle that transfers exactly what is requested, the loop runs
to completion within `remaining` iterations and the resulting memory holds
the untouched prefix of the payload region plus the rest of the payload
stored contiguously from `base + offset + total_written`. -/
theorem writeAllGo_exact (a : Allocation) (offset : Nat) (data : List Nat)
    (c T : Nat) (hc : 1 ≤ c) (hT : data.length ≤ T) :
    ∀ fuel rem tot s, rem ≤ fuel → tot + rem = data.length →
      (∀ j, s.outcomes j = CallOutcome.ok T) →
      ∃ s', writeAllGo a offset data c fuel rem tot s = BufResult.done s' ∧
        s'.mem = writeBytes s.mem (a.base + offset + tot) (data.drop tot) := by
  intro fuel
  induction fuel with
  | zero =>
    intro rem tot s hrem hinv hor
    have h0 : rem = 0 := by omega
    refine ⟨s, by rw [writeAllGo, if_pos h0], ?_⟩
    have : data.drop tot = [] := by
      apply List.drop_eq_nil_of_le
      omega
    rw [this, writeBytes]
  | succ fuel ih =>
    intro rem tot s hrem hinv hor
    by_cases h0 : rem = 0
    · refine ⟨s, by rw [writeAllGo, if_pos h0], ?_⟩
      have : data.drop tot = [] := by
        apply List.drop_eq_nil_of_le
        omega
      rw [this, writeBytes]
    · have hle : min rem c ≤ rem := Nat.min_le_left _ _
      have hmin1 : 1 ≤ min rem c := by omega
      have hlen : ((data.drop tot).take (min rem c)).length = min rem c := by
        rw [List.length_take, List.length_drop]
        omega
      rw [writeAllGo_step_ok a offset data c fuel rem tot s T h0 (by omega) (hor s.k)]
      have hminT : min T (min rem c) = min rem c := by omega
      rw [hminT]
      have htake : ((data.drop tot).take (min rem c)).take (min rem c) =
          (data.drop tot).take (min rem c) := by
        have h := List.take_length ((data.drop tot).take (min rem c))
        rw [hlen] at h
        exact h
      rw [htake]
      rw [if_neg (by omega)]
      obtain ⟨s', hgo, hmem⟩ := ih (rem - min rem c) (tot + min rem c)
        { s with
          mem := writeBytes s.mem (a.base + (tot + offset)) ((data.drop tot).take (min rem c)),
          k := s.k + 1 }
        (by omega) (by omega) (fun j => hor j)
      refine ⟨s', hgo, ?_⟩
      rw [hmem]
      show writeBytes
          (writeBytes s.mem (a.base + (tot + offset)) ((data.drop tot).take (min rem c)))
          (a.base + offset + (tot + min rem c)) (data.drop (tot + min rem c)) =
        writeBytes s.mem (a.base + offset + tot) (data.drop tot)
      have haddr : a.base + offset + (tot + min rem c) =
          a.base + (tot + offset) + ((data.drop tot).take (min rem c)).length := by
        rw [hlen]; omega
      rw [haddr, ← writeBytes_append]
      have hsplit : (data.drop tot).take (min rem c) ++ data.drop (tot + min rem c) =
          data.drop tot := List.drop_take_append_drop data tot (min rem c)
      rw [hsplit]
      have : a.base + (tot + offset) = a.base + offset + tot := by omega
      rw [this]

/-- Below the capacity limit, the buffered write is its loop. -/
theorem write_all_buffered_offset_in_cap (a : Allocation) (offset : Nat)
    (data : List Nat) (bufSize fuel : Nat) (s : OS) (h : bufSize ≤ ISIZE_MAX) :
    Allocation.write_all_bytes_buffered_offset a offset data bufSize fuel s =
      writeAllGo a offset data bufSize fuel data.length 0 s := by
  unfold Allocation.write_all_bytes_buffered_offset
  rw [if_neg (by omega)]

/-- Above the capacity limit, `Vec::with_capacity` panics before the loop
and before any OS call. -/
theorem write_all_buffered_offset_cap_overflow (a : Allocation) (offset : Nat)
    (data : List Nat) (bufSize fuel : Nat) (s : OS) (h : ISIZE_MAX < bufSize) :
    Allocation.write_all_bytes_buffered_offset a offset data bufSize fuel s =
      BufResult.panicked := by
  unfold Allocation.write_all_bytes_buffered_offset
  rw [if_pos h]

theorem read_ok_eq (a : Allocation) (addr n : Nat) (s : OS) (t : Nat)
    (hk : s.outcomes s.k = CallOutcome.ok t) :
    a.read addr n s =
      (Except.ok (min t n, (List.range (min t n)).map fun i => s.mem (addr + i)),
       { s with k := s.k + 1 }) := by
  unfold Allocation.read
  rw [readProcessMemory_ok s addr n t hk]

theorem read_fail_eq (a : Allocation) (addr n : Nat) (s : OS) (e : Nat)
    (hk : s.outcomes s.k = CallOutcome.fail e) :
    a.read addr n s = (Except.error e, { s with err := e, k := s.k + 1 }) := by
  unfold Allocation.read
  rw [readProcessMemory_fail s addr n e hk]

theorem read_const_ok_eq (a : Allocation) (n addr : Nat) (s : OS) (t : Nat)
    (hk : s.outcomes s.k = CallOutcome.ok t) :
    a.read_const n addr s =
      if min t n = 0 then (Except.error s.err, { s with k := s.k + 1 })
      else (Except.ok (((List.range (min t n)).map fun i => s.mem (addr + i)) ++
        List.replicate (n - min t n) 0), { s with k := s.k + 1 }) := by
  unfold Allocation.read_const
  rw [read_ok_eq a addr n s t hk]

theorem read_const_fail_eq (a : Allocation) (n addr : Nat) (s : OS) (e : Nat)
    (hk : s.outcomes s.k = CallOutcome.fail e) :
    a.read_const n addr s = (Except.error e, { s with err := e, k := s.k + 1 }) := by
  unfold Allocation.read_const
  rw [read_fail_eq a addr n s e hk]

theorem write_fst (a : Allocation) (addr : Nat) (data : List Nat) (s : OS) (t : Nat)
    (hk : s.outcomes s.k = CallOutcome.ok t) :
    (a.write addr data s).1 = Except.ok (min t data.length) := by
  rw [write_ok_eq a addr data s t hk]

theorem range_map_writeBytes' (bs : List Nat) (m : Nat → Nat) (addr n : Nat)
    (h : n = bs.length) :
    ((List.range n).map fun i => writeBytes m addr bs (addr + i)) = bs := by
  subst h
  exact range_map_writeBytes bs m addr

/-- C1 counterexample: with an OS read that succeeds reporting 2 of the 4
requested bytes, `read_u32` returns a value (`Ok 0` over all-zero memory)
instead of the OS error the claim requires for every short read. -/
theorem read_u32_short_read_returns_value :
    (Allocation.read_u32 allocW 0 stOk2).1 = Except.ok 0 ∧
      stOk2.outcomes 0 = CallOutcome.ok 2 := by
  exact ⟨rfl, rfl⟩

/-- C1 (amended): in `read_const` (hence in every typed read built on it) a
successful OS read is rejected with the error code fetched at that moment
exactly when the reported count is `0`; a short but nonzero transfer
returns `Ok` with the transferred bytes zero-padded to `N` — illustrated on
`read_u32`, which yields a value whenever at least one byte is reported. -/
theorem read_const_error_iff_zero_reported (a : Allocation) (n addr : Nat) (s : OS)
    (t : Nat) (hk : s.outcomes s.k = CallOutcome.ok t) :
    (min t n = 0 → (a.read_const n addr s).1 = Except.error s.err) ∧
    (0 < min t n → (a.read_const n addr s).1 =
      Except.ok (((List.range (min t n)).map fun i => s.mem (addr + i)) ++
        List.replicate (n - min t n) 0)) ∧
    (0 < min t 4 → ∃ w, (a.read_u32 addr s).1 = Except.ok w) := by
  refine ⟨?_, ?_, ?_⟩
  · intro h0
    rw [read_const_ok_eq a n addr s t hk, if_pos h0]
  · intro hpos
    rw [read_const_ok_eq a n addr s t hk, if_neg (by omega)]
  · intro hpos
    unfold Allocation.read_u32
    rw [read_const_ok_eq a 4 addr s t hk, if_neg (by omega)]
    exact ⟨_, rfl⟩

/-- C1 witness: a read reporting 2 of 4 bytes returns the two transferred
bytes padded with two zeros. -/
theorem read_const_short_ok_witness :
    (Allocation.read_const allocW 4 0 stOk2).1 = Except.ok [0, 0, 0, 0] :=
  (read_const_error_iff_zero_reported allocW 4 0 stOk2 2 rfl).2.1 (by decide)

/-- C2 counterexample: with an empty offset array, `deref_chain` returns
`Ok start` and the state untouched even though every OS read would fail —
so no initial word read is performed, contradicting the claim that one read
happens and that its failure is surfaced. -/
theorem deref_chain_empty_ignores_failing_oracle :
    Allocation.deref_chain allocW 100 [] stFail = (Except.ok 100, stFail) ∧
      stFail.outcomes 0 = CallOutcome.fail 5 := by
  exact ⟨rfl, rfl⟩

/-- C2 (amended): with an empty offset array `deref_chain` performs no OS
call at all and unconditionally returns the input `start` address: the loop
body (which contains both word reads) is never entered. -/
theorem deref_chain_empty_returns_start (a : Allocation) (start : Nat) (s : OS) :
    a.deref_chain start [] s = (Except.ok start, s) := by
  rfl

/-- C9: every typed write and the generic `write` return `Ok` carrying the
reported byte count whenever the OS call succeeds, with no short-transfer
check — in particular a reported count below `sizeof(T)` is still `Ok`. -/
theorem typed_writes_return_reported_count (a : Allocation) (addr offset v : Nat)
    (s : OS) (t : Nat) (hk : s.outcomes s.k = CallOutcome.ok t) :
    (a.write_u32 addr v s).1 = Except.ok (min t 4) ∧
    (a.write_u16 addr v s).1 = Except.ok (min t 2) ∧
    (a.write_i32 addr v s).1 = Except.ok (min t 4) ∧
    (a.write_f32 addr v s).1 = Except.ok (min t 4) ∧
    (a.write_u32_offset offset v s).1 = Except.ok (min t 4) ∧
    (a.write_f32_offset offset v s).1 = Except.ok (min t 4) ∧
    (a.write_i32_offset offset v s).1 = Except.ok (min t 4) ∧
    (∀ data : List Nat, (a.write addr data s).1 = Except.ok (min t data.length)) := by
  refine ⟨?_, ?_, ?_, ?_, ?_, ?_, ?_, ?_⟩
  · show (a.write addr (leEncode 4 v) s).1 = _
    rw [write_fst a addr _ s t hk, leEncode_length]
  · show (a.write addr (leEncode 2 v) s).1 = _
    rw [write_fst a addr _ s t hk, leEncode_length]
  · show (a.write addr (leEncode 4 v) s).1 = _
    rw [write_fst a addr _ s t hk, leEncode_length]
  · show (a.write addr (leEncode 4 v) s).1 = _
    rw [write_fst a addr _ s t hk, leEncode_length]
  · show (a.write (a.base + offset) (leEncode 4 v) s).1 = _
    rw [write_fst a _ _ s t hk, leEncode_length]
  · show (a.write (a.base + offset) (leEncode 4 v) s).1 = _
    rw [write_fst a _ _ s t hk, leEncode_length]
  · show (a.write (a.base + offset) (leEncode 4 v) s).1 = _
    rw [write_fst a _ _ s t hk, leEncode_length]
  · intro data
    exact write_fst a addr data s t hk

/-- C9 witness: an OS write reporting 1 of the 4 requested bytes still
yields `Ok 1` from `write_u32`. -/
theorem typed_writes_return_reported_count_witness :
    (Allocation.write_u32 allocW 9 123 stOk1).1 = Except.ok 1 :=
  (typed_writes_return_reported_count allocW 9 0 123 stOk1 1 rfl).1

/-- C10: a successful OS read reporting 0 bytes makes `read_const` return
the last OS error fetched at that moment, and `read_const` instantiated at
`N = 0` can never return `Ok` under any OS outcome (the clamped reported
count is always 0 there). -/
theorem read_const_zero_transfer_errors (a : Allocation) (n addr : Nat) (s : OS)
    (hk : s.outcomes s.k = CallOutcome.ok 0) :
    (a.read_const n addr s).1 = Except.error s.err ∧
    (∀ (s' : OS) (bs : List Nat), (a.read_const 0 addr s').1 ≠ Except.ok bs) := by
  constructor
  · rw [read_const_ok_eq a n addr s 0 hk, if_pos (by omega)]
  · intro s' bs
    rcases hc : s'.outcomes s'.k with e | t
    · rw [read_const_fail_eq a 0 addr s' e hc]
      intro h
      cases h
    · rw [read_const_ok_eq a 0 addr s' t hc, if_pos (by omega)]
      intro h
      cases h

/-- C10 witness: a zero-byte successful read of 4 bytes surfaces the last
OS error (6) instead of a buffer. -/
theorem read_const_zero_transfer_errors_witness :
    (Allocation.read_const allocW 4 55 stZero).1 = Except.error 6 :=
  (read_const_zero_transfer_errors allocW 4 55 stZero rfl).1

theorem derefGo_cons_true (a : Allocation) (o : Nat) (rest : List Nat) (addr : Nat)
    (s : OS) :
    derefGo a (o :: rest) addr 0 true s =
      match readWord s addr with
      | (none, s') => (Except.error s'.err, s')
      | (some t, s') =>
        match readWord s' ((o + t) % WORD) with
        | (none, s'') => (Except.error s''.err, s'')
        | (some t', s'') => derefGo a rest ((o + t) % WORD) t' false s'' := by
  rfl

/-- C3: on a non-empty offset list `deref_chain` coincides with the
specification's algorithm `derefChainSpec`: one word read at `start` into
the accumulator `t`; for each offset `o` in order, `addr := t + o`
(machine-word addition) followed by a word read at `addr` into `t` — so a
word read is also performed at the final `addr`; on success the final
`addr` (not the final `t`) is returned, and the first failing word read
aborts with the OS error captured at that moment. -/
theorem deref_chain_cons_eq_spec (a : Allocation) (start o : Nat) (rest : List Nat)
    (s : OS) :
    a.deref_chain start (o :: rest) s = derefChainSpec a start (o :: rest) s := by
  unfold Allocation.deref_chain derefChainSpec
  rw [derefGo_cons_true]
  rcases h1 : readWord s start with ⟨r1, s1⟩
  cases r1 with
  | none => rfl
  | some t =>
    show (match readWord s1 ((o + t) % WORD) with
          | (none, s'') => ((Except.error s''.err : Except Nat Nat), s'')
          | (some t', s'') => derefGo a rest ((o + t) % WORD) t' false s'') =
        derefFold a (o :: rest) start t s1
    rw [derefFold_cons, Nat.add_comm o t]
    rcases h2 : readWord s1 ((t + o) % WORD) with ⟨r2, s2⟩
    cases r2 with
    | none => rfl
    | some t' => exact derefGo_false_eq a rest ((t + o) % WORD) t' s2

/-- C4 counterexample: the claim quantifies over every chunk size `c ≥ 1`,
but at `c = 2 ^ 63` (which exceeds `isize::MAX`) the pre-loop
`Vec::with_capacity(buf_size)` panics with capacity overflow before any OS
call, so the buffered write produces no memory contents at all instead of
matching a single `write_offset`. -/
theorem buffered_write_capacity_overflow :
    Allocation.write_all_bytes_buffered_offset allocW 0 [1] (2 ^ 63) 1 stT =
      BufResult.panicked ∧ 1 ≤ 2 ^ 63 := by
  exact ⟨write_all_buffered_offset_cap_overflow allocW 0 [1] (2 ^ 63) 1 stT
    (by decide), by decide⟩

/-- C4 (amended): when every OS write transfers exactly what is requested
and the chunk size `c` satisfies `1 ≤ c ≤ isize::MAX` (larger chunk sizes
panic in `Vec::with_capacity` before any OS call), the buffered write runs
to completion (each chunk at most `c` bytes, the position advancing by the
reported count) and the resulting memory equals that of a single
`write_offset` of the whole payload at the same offset. -/
theorem buffered_write_refines_single_write (a : Allocation) (offset : Nat)
    (data : List Nat) (c T : Nat) (s : OS) (hc : 1 ≤ c) (hcap : c ≤ ISIZE_MAX)
    (hor : ∀ j, s.outcomes j = CallOutcome.ok T) (hT : data.length ≤ T) :
    ∃ s₁ w s₂,
      Allocation.write_all_bytes_buffered_offset a offset data c data.length s =
        BufResult.done s₁ ∧
      a.write_offset offset data s = (Except.ok w, s₂) ∧
      s₁.mem = s₂.mem := by
  obtain ⟨s₁, hgo, hmem⟩ := writeAllGo_exact a offset data c T hc hT data.length
    data.length 0 s (le_refl _) (by omega) hor
  have hminT : min T data.length = data.length := by omega
  have htake : data.take (min T data.length) = data := by
    rw [hminT]
    exact List.take_length data
  refine ⟨s₁, min T data.length, { s with mem := writeBytes s.mem (a.base + offset) (data.take (min T data.length)), k := s.k + 1 }, ?_, ?_, ?_⟩
  · rw [write_all_buffered_offset_in_cap a offset data c data.length s hcap]
    exact hgo
  · show a.write (a.base + offset) data s = _
    rw [write_ok_eq a (a.base + offset) data s T (hor s.k)]
  · rw [hmem]
    show writeBytes s.mem (a.base + offset + 0) (data.drop 0) =
      writeBytes s.mem (a.base + offset) (data.take (min T data.length))
    rw [htake, Nat.add_zero, List.drop_zero]

/-- C4 witness: payload `[1, 2, 3]`, chunk size 2, full transfers. -/
theorem buffered_write_refines_single_write_witness :
    ∃ s₁ w s₂,
      Allocation.write_all_bytes_buffered_offset allocW 3 [1, 2, 3] 2 3 stT =
        BufResult.done s₁ ∧
      Allocation.write_offset allocW 3 [1, 2, 3] stT = (Except.ok w, s₂) ∧
      s₁.mem = s₂.mem :=
  buffered_write_refines_single_write allocW 3 [1, 2, 3] 2 16 stT (by decide)
    (by decide) (fun j => rfl) (by decide)

/-- C5 counterexample: on payload `[1]` with chunk size 1 and an OS whose
writes all succeed reporting 0 bytes, the loop makes no progress: even a
step bound of one million passes is exhausted without the operation either
completing or aborting with an OS error. -/
theorem buffered_write_zero_reports_no_termination :
    Allocation.write_all_bytes_buffered_offset allocW 0 [1] 1 1000000 stZero =
      BufResult.fuelOut := by
  rw [write_all_buffered_offset_in_cap allocW 0 [1] 1 1000000 stZero (by decide)]
  exact writeAllGo_zero_reports allocW 0 [1] 1 1 0 (by decide) (by decide) 1000000
    stZero (fun j => rfl)

/-- C5 (amended): the buffered write terminates — runs to completion or
aborts with an OS error from a failing chunk write, tolerating short
writes — within `data.length` loop passes, provided the chunk size `c`
satisfies `1 ≤ c ≤ isize::MAX` and every successful chunk write reports at
least one byte. A chunk size above `isize::MAX` instead panics in the
pre-loop `Vec::with_capacity` before any OS call, and if the OS keeps
succeeding while reporting 0 bytes written (as a chunk size of 0 forces),
the loop never returns. -/
theorem buffered_write_terminates_on_positive_reports (a : Allocation) (offset : Nat)
    (data : List Nat) (c : Nat) (s : OS) (hc : 1 ≤ c) (hcap : c ≤ ISIZE_MAX)
    (hpos : ∀ j t, s.outcomes j = CallOutcome.ok t → 1 ≤ t) :
    (Allocation.write_all_bytes_buffered_offset a offset data c data.length s).isNormal := by
  rw [write_all_buffered_offset_in_cap a offset data c data.length s hcap]
  exact writeAllGo_terminates a offset data c hc data.length data.length 0 s
    (le_refl _) (by omega) hpos

/-- C5 witness: payload `[3]`, chunk 1, all writes reporting 16 bytes. -/
theorem buffered_write_terminates_witness :
    (Allocation.write_all_bytes_buffered_offset allocW 0 [3] 1 1 stT).isNormal :=
  buffered_write_terminates_on_positive_reports allocW 0 [3] 1 stT (by decide)
    (by decide) (fun j t h => by injection h with h2; omega)

/-- C8 counterexample: "no public operation panics for any input" fails:
`write_all_bytes_buffered` with chunk size `2 ^ 63` (above `isize::MAX`)
panics with capacity overflow in the unconditional pre-loop
`Vec::with_capacity(buf_size)` — before any OS call, even on an empty
payload. -/
theorem buffered_write_capacity_panics :
    Allocation.write_all_bytes_buffered allocW [] (2 ^ 63) 1 stT =
      BufResult.panicked := by
  exact write_all_buffered_offset_cap_overflow allocW 0 [] (2 ^ 63) 1 stT (by decide)

/-- With writes that succeed reporting 0 bytes, `write_all_bytes_buffered`
exhausts a step bound of one million passes without returning a value or an
error: the loop advances only by the reported count. -/
theorem buffered_write_may_not_return :
    Allocation.write_all_bytes_buffered allocW [7, 7] 2 1000000 stZero =
      BufResult.fuelOut := by
  show Allocation.write_all_bytes_buffered_offset allocW 0 [7, 7] 2 1000000 stZero = _
  rw [write_all_buffered_offset_in_cap allocW 0 [7, 7] 2 1000000 stZero (by decide)]
  exact writeAllGo_zero_reports allocW 0 [7, 7] 2 2 0 (by decide) (by decide) 1000000
    stZero (fun j => rfl)

/-- C8 (amended): for chunk sizes up to `isize::MAX` no operation panics,
aborts or exits — in the buffered-write loop the payload slice is always in
bounds and the reported count never exceeds the remainder, so neither loop
panic site fires for any input, any step bound and any OS outcome; a chunk
size above `isize::MAX` deterministically panics in the pre-loop
`Vec::with_capacity` before any OS call; the straight-line fallible
operations always return a value or a numeric OS error; the trivially-total
operations (`existing`, `inner`, `SendAlloc` construction and conversion)
are total; and the buffered write also returns (completes or aborts)
provided every successful chunk write reports at least one byte — but may
fail to return under perpetual zero-byte reports. -/
theorem library_no_panic_and_result_shape :
    (∀ (a : Allocation) (offset : Nat) (data : List Nat) (c fuel : Nat) (s : OS),
      c ≤ ISIZE_MAX →
      Allocation.write_all_bytes_buffered_offset a offset data c fuel s ≠
        BufResult.panicked) ∧
    (∀ (a : Allocation) (offset : Nat) (data : List Nat) (c fuel : Nat) (s : OS),
      ISIZE_MAX < c →
      Allocation.write_all_bytes_buffered_offset a offset data c fuel s =
        BufResult.panicked) ∧
    (∀ (a : Allocation) (n addr : Nat) (s : OS),
      (∃ bs, (a.read_const n addr s).1 = Except.ok bs) ∨
      (∃ e, (a.read_const n addr s).1 = Except.error e)) ∧
    (∀ (a : Allocation) (addr : Nat) (data : List Nat) (s : OS),
      (∃ w, (a.write addr data s).1 = Except.ok w) ∨
      (∃ e, (a.write addr data s).1 = Except.error e)) ∧
    (∀ (a : Allocation) (start : Nat) (offsets : List Nat) (s : OS),
      (∃ r, (a.deref_chain start offsets s).1 = Except.ok r) ∨
      (∃ e, (a.deref_chain start offsets s).1 = Except.error e)) ∧
    (∀ h b, (SendAlloc.mk' h b).toAllocation = Allocation.existing h b ∧
      (Allocation.existing h b).inner = b ∧ (SendAlloc.mk' h b).p_base = b) ∧
    (∀ (a : Allocation) (offset : Nat) (data : List Nat) (c : Nat) (s : OS),
      1 ≤ c → c ≤ ISIZE_MAX → (∀ j t, s.outcomes j = CallOutcome.ok t → 1 ≤ t) →
      (Allocation.write_all_bytes_buffered_offset a offset data c data.length s).isNormal) := by
  refine ⟨?_, ?_, ?_, ?_, ?_, ?_, ?_⟩
  · intro a offset data c fuel s hcap
    rw [write_all_buffered_offset_in_cap a offset data c fuel s hcap]
    exact writeAllGo_never_panics a offset data c fuel data.length 0 s (by omega)
  · intro a offset data c fuel s hcap
    exact write_all_buffered_offset_cap_overflow a offset data c fuel s hcap
  · intro a n addr s
    cases h : (a.read_const n addr s).1 with
    | error e => exact Or.inr ⟨e, rfl⟩
    | ok bs => exact Or.inl ⟨bs, rfl⟩
  · intro a addr data s
    cases h : (a.write addr data s).1 with
    | error e => exact Or.inr ⟨e, rfl⟩
    | ok w => exact Or.inl ⟨w, rfl⟩
  · intro a start offsets s
    cases h : (a.deref_chain start offsets s).1 with
    | error e => exact Or.inr ⟨e, rfl⟩
    | ok r => exact Or.inl ⟨r, rfl⟩
  · intro h b
    exact ⟨rfl, rfl, rfl⟩
  · intro a offset data c s hc hcap hpos
    rw [write_all_buffered_offset_in_cap a offset data c data.length s hcap]
    exact writeAllGo_terminates a offset data c hc data.length data.length 0 s
      (le_refl _) (by omega) hpos

/-- C8 witness: the no-return-hypothesis conjunct applied concretely —
payload `[2, 2]`, chunk 1, full transfers, loop returns normally. -/
theorem library_no_panic_witness :
    (Allocation.write_all_bytes_buffered_offset allocW 0 [2, 2] 1 2 stT).isNormal :=
  library_no_panic_and_result_shape.2.2.2.2.2.2 allocW 0 [2, 2] 1 stT (by decide)
    (by decide) (fun j t h => by injection h with h2; omega)

theorem write_snd_full (a : Allocation) (addr n v : Nat) (s : OS) (T : Nat)
    (hor : ∀ j, s.outcomes j = CallOutcome.ok T) (hT : n ≤ T) :
    (a.write addr (leEncode n v) s).2 =
      { s with mem := writeBytes s.mem addr (leEncode n v), k := s.k + 1 } := by
  have hlen := leEncode_length n v
  have hminT : min T (leEncode n v).length = n := by rw [hlen]; omega
  have htake : (leEncode n v).take n = leEncode n v := by
    have h := List.take_length (leEncode n v)
    rw [hlen] at h
    exact h
  rw [write_ok_eq a addr _ s T (hor s.k), hminT, htake]

theorem read_u8_eq (a : Allocation) (addr : Nat) (s : OS) (t : Nat)
    (hk : s.outcomes s.k = CallOutcome.ok t) (ht : 1 ≤ t) :
    (a.read_u8 addr s).1 = Except.ok (s.mem addr) := by
  unfold Allocation.read_u8
  rw [read_const_ok_eq a 1 addr s t hk]
  have h1 : min t 1 = 1 := by omega
  rw [h1, if_neg (by omega)]
  show Except.ok (leDecode ((List.range 1).map (fun i => s.mem (addr + i)) ++
    List.replicate (1 - 1) 0)) = Except.ok (s.mem addr)
  simp [show List.range 1 = [0] from rfl, leDecode]

/-- Writing the `n`-byte little-endian encoding of `v` and then reading `n`
bytes back at the same address under full transfers recovers `v`. -/
theorem roundtrip_aux (a : Allocation) (addr n v : Nat) (s : OS) (T : Nat)
    (hor : ∀ j, s.outcomes j = CallOutcome.ok T) (hn : 1 ≤ n) (hT : n ≤ T)
    (hv : v < 256 ^ n) :
    (decodeResult (a.read_const n addr ((a.write addr (leEncode n v) s).2))).1 =
      Except.ok v := by
  have hlen := leEncode_length n v
  rw [write_snd_full a addr n v s T hor hT]
  rw [read_const_ok_eq a n addr _ T (hor (s.k + 1))]
  have hminT : min T n = n := by omega
  rw [hminT, if_neg (by omega)]
  show Except.ok (leDecode ((List.range n).map
    (fun i => writeBytes s.mem addr (leEncode n v) (addr + i)) ++
      List.replicate (n - n) 0)) = Except.ok v
  rw [Nat.sub_self, List.replicate_zero, List.append_nil]
  rw [range_map_writeBytes' (leEncode n v) s.mem addr n hlen.symm]
  rw [leDecode_leEncode n v hv]

/-- C6: for every primitive type, writing a value with its typed write (or
the generic byte write of its little-endian encoding where no typed write
exists) and reading it back with the corresponding typed read at the same
address returns a bit-identical value — values (including float and signed
bit patterns) being represented by their `Nat` bit patterns, bit-identity
is equality of patterns. Transfers are full (`T` covers every request). -/
theorem typed_write_read_roundtrip (a : Allocation) (addr : Nat) (s : OS) (T : Nat)
    (hor : ∀ j, s.outcomes j = CallOutcome.ok T) (hT : 16 ≤ T) :
    (∀ v, v < 2 ^ 8 →
      (a.read_u8 addr ((a.write addr (leEncode 1 v) s).2)).1 = Except.ok v) ∧
    (∀ v, v < 2 ^ 16 →
      (a.read_u16 addr ((a.write_u16 addr v s).2)).1 = Except.ok v) ∧
    (∀ v, v < 2 ^ 32 →
      (a.read_u32 addr ((a.write_u32 addr v s).2)).1 = Except.ok v) ∧
    (∀ v, v < 2 ^ 64 →
      (a.read_u64 addr ((a.write addr (leEncode 8 v) s).2)).1 = Except.ok v) ∧
    (∀ v, v < 2 ^ 128 →
      (a.read_u128 addr ((a.write addr (leEncode 16 v) s).2)).1 = Except.ok v) ∧
    (∀ v, v < 2 ^ 16 →
      (a.read_i16 addr ((a.write addr (leEncode 2 v) s).2)).1 = Except.ok v) ∧
    (∀ v, v < 2 ^ 32 →
      (a.read_i32 addr ((a.write_i32 addr v s).2)).1 = Except.ok v) ∧
    (∀ v, v < 2 ^ 64 →
      (a.read_i64 addr ((a.write addr (leEncode 8 v) s).2)).1 = Except.ok v) ∧
    (∀ v, v < 2 ^ 32 →
      (a.read_f32 addr ((a.write_f32 addr v s).2)).1 = Except.ok v) ∧
    (∀ v, v < 2 ^ 64 →
      (a.read_f64 addr ((a.write addr (leEncode 8 v) s).2)).1 = Except.ok v) := by
  refine ⟨?_, ?_, ?_, ?_, ?_, ?_, ?_, ?_, ?_, ?_⟩
  · intro v hv
    exact roundtrip_aux a addr 1 v s T hor (by omega) (by omega) (by norm_num at hv ⊢; omega)
  · intro v hv
    exact roundtrip_aux a addr 2 v s T hor (by omega) (by omega) (by norm_num at hv ⊢; omega)
  · intro v hv
    exact roundtrip_aux a addr 4 v s T hor (by omega) (by omega) (by norm_num at hv ⊢; omega)
  · intro v hv
    exact roundtrip_aux a addr 8 v s T hor (by omega) (by omega) (by norm_num at hv ⊢; omega)
  · intro v hv
    exact roundtrip_aux a addr 16 v s T hor (by omega) (by omega) (by norm_num at hv ⊢; omega)
  · intro v hv
    exact roundtrip_aux a addr 2 v s T hor (by omega) (by omega) (by norm_num at hv ⊢; omega)
  · intro v hv
    exact roundtrip_aux a addr 4 v s T hor (by omega) (by omega) (by norm_num at hv ⊢; omega)
  · intro v hv
    exact roundtrip_aux a addr 8 v s T hor (by omega) (by omega) (by norm_num at hv ⊢; omega)
  · intro v hv
    exact roundtrip_aux a addr 4 v s T hor (by omega) (by omega) (by norm_num at hv ⊢; omega)
  · intro v hv
    exact roundtrip_aux a addr 8 v s T hor (by omega) (by omega) (by norm_num at hv ⊢; omega)

/-- C6 witness: `write_u32` then `read_u32` of `0xDEADBEEF` at address 44. -/
theorem typed_write_read_roundtrip_witness :
    (Allocation.read_u32 allocW 44 ((Allocation.write_u32 allocW 44 3735928559 stT).2)).1 =
      Except.ok 3735928559 :=
  (typed_write_read_roundtrip allocW 44 stT 16 (fun j => rfl) (by omega)).2.2.1
    3735928559 (by norm_num)

/-- C7: `write_u32` serializes little-endian — after writing `v` the byte at
`addr + i` is the `i`-th least significant byte of `v` (so writing
`0x01020304` then reading bytes at offsets 0..3 yields `04 03 02 01`), and
`read_u32` interprets the four fetched bytes little-endian, returning
`b0 + 256*b1 + 65536*b2 + 16777216*b3`. -/
theorem u32_write_is_little_endian (a : Allocation) (addr v : Nat) (s : OS) (T : Nat)
    (hor : ∀ j, s.outcomes j = CallOutcome.ok T) (hT : 4 ≤ T) (hv : v < 2 ^ 32) :
    (∀ i, i < 4 → ((a.write_u32 addr v s).2).mem (addr + i) = v / 256 ^ i % 256) ∧
    (∀ i, i < 4 → (a.read_u8 (addr + i) ((a.write_u32 addr v s).2)).1 =
      Except.ok (v / 256 ^ i % 256)) ∧
    (a.read_u32 addr s).1 = Except.ok
      (s.mem addr + 256 * s.mem (addr + 1) + 65536 * s.mem (addr + 2) +
        16777216 * s.mem (addr + 3)) := by
  have hlen := leEncode_length 4 v
  have hs2 : (a.write_u32 addr v s).2 =
      { s with mem := writeBytes s.mem addr (leEncode 4 v), k := s.k + 1 } :=
    write_snd_full a addr 4 v s T hor (by omega)
  have hmembyte : ∀ i, i < 4 →
      ((a.write_u32 addr v s).2).mem (addr + i) = v / 256 ^ i % 256 := by
    intro i hi
    rw [hs2]
    show writeBytes s.mem addr (leEncode 4 v) (addr + i) = v / 256 ^ i % 256
    rw [writeBytes_apply_in _ _ _ _ (by rw [hlen]; omega), leEncode_getD 4 v i hi]
  have hk2 : ((a.write_u32 addr v s).2).outcomes ((a.write_u32 addr v s).2).k =
      CallOutcome.ok T := by
    rw [hs2]
    exact hor (s.k + 1)
  refine ⟨hmembyte, ?_, ?_⟩
  · intro i hi
    rw [read_u8_eq a (addr + i) _ T hk2 (by omega), hmembyte i hi]
  · unfold Allocation.read_u32
    rw [read_const_ok_eq a 4 addr s T (hor s.k)]
    have h4 : min T 4 = 4 := by omega
    rw [h4, if_neg (by omega)]
    show Except.ok (leDecode ((List.range 4).map (fun i => s.mem (addr + i)) ++
      List.replicate (4 - 4) 0)) = _
    rw [show List.range 4 = [0, 1, 2, 3] from rfl]
    simp only [List.map_cons, List.map_nil, Nat.sub_self, List.replicate_zero,
      List.append_nil, leDecode, Nat.add_zero]
    congr 1
    ring

/-- C7 witness: writing `0x01020304` (16909060) at address 100 and reading
the four bytes at offsets 0..3 yields `0x04, 0x03, 0x02, 0x01`. -/
theorem u32_write_is_little_endian_witness :
    (Allocation.read_u8 allocW (100 + 0) ((Allocation.write_u32 allocW 100 16909060 stT).2)).1 =
      Except.ok 4 ∧
    (Allocation.read_u8 allocW (100 + 1) ((Allocation.write_u32 allocW 100 16909060 stT).2)).1 =
      Except.ok 3 ∧
    (Allocation.read_u8 allocW (100 + 2) ((Allocation.write_u32 allocW 100 16909060 stT).2)).1 =
      Except.ok 2 ∧
    (Allocation.read_u8 allocW (100 + 3) ((Allocation.write_u32 allocW 100 16909060 stT).2)).1 =
      Except.ok 1 :=
  ⟨(u32_write_is_little_endian allocW 100 16909060 stT 16 (fun j => rfl) (by omega)
      (by norm_num)).2.1 0 (by omega),
   (u32_write_is_little_endian allocW 100 16909060 stT 16 (fun j => rfl) (by omega)
      (by norm_num)).2.1 1 (by omega),
   (u32_write_is_little_endian allocW 100 16909060 stT 16 (fun j => rfl) (by omega)
      (by norm_num)).2.1 2 (by omega),
   (u32_write_is_little_endian allocW 100 16909060 stT 16 (fun j => rfl) (by omega)
      (by norm_num)).2.1 3 (by omega)⟩
